import Mathlib

set_option allowUnsafeReducibility true
attribute [semireducible] Rat.add Rat.mul Rat.sub Rat.inv
set_option maxRecDepth 1000000

/-!
Verification of the loan amortization engine in `src/utils/loan.ts`
(`amortize`, `calculateLoan`, `summarizeLoan`, `monthsToYearsMonths`).

The engine is modelled over exact rationals (`ℚ`): every JavaScript
arithmetic operation on the reachable inputs is an exact rational
operation, and the special values `Infinity`, `-Infinity`, `NaN`
produced or consumed by the summary fields are modelled by the
dedicated type `JNum` below with IEEE-style semantics for the
operations the source actually applies to them.
-/

/-- A JavaScript number as used by the loan engine: a finite rational,
positive or negative infinity, or NaN. -/
inductive JNum where
  | fin (q : ℚ)
  | inf
  | ninf
  | nan
  deriving DecidableEq, Repr

namespace JNum

/-- `Number.isFinite`. -/
def isFinite : JNum → Bool
  | fin _ => true
  | _ => false

/-- JavaScript subtraction `a - b` on possibly non-finite numbers. -/
def sub : JNum → JNum → JNum
  | fin a, fin b => fin (a - b)
  | fin _, inf => ninf
  | fin _, ninf => inf
  | inf, fin _ => inf
  | inf, inf => nan
  | inf, ninf => inf
  | ninf, fin _ => ninf
  | ninf, inf => ninf
  | ninf, ninf => nan
  | nan, _ => nan
  | _, nan => nan

/-- JavaScript `Math.max(x, 0)`. -/
def max0 : JNum → JNum
  | fin a => fin (max a 0)
  | inf => inf
  | ninf => fin 0
  | nan => nan

/-- JavaScript `<` comparison (false whenever an operand is NaN). -/
def blt : JNum → JNum → Bool
  | fin a, fin b => a < b
  | fin _, inf => true
  | ninf, fin _ => true
  | ninf, inf => true
  | _, _ => false

/-- JavaScript `<=` comparison (false whenever an operand is NaN). -/
def ble : JNum → JNum → Bool
  | fin a, fin b => a ≤ b
  | fin _, inf => true
  | ninf, _ => true
  | inf, inf => true
  | _, _ => false

/-- `x < y` as a proposition. -/
def Lt (x y : JNum) : Prop := blt x y = true

/-- `x <= y` as a proposition. -/
def Le (x y : JNum) : Prop := ble x y = true

instance (x y : JNum) : Decidable (Lt x y) := by unfold Lt; infer_instance

instance (x y : JNum) : Decidable (Le x y) := by unfold Le; infer_instance

end JNum

/-- JavaScript `Math.round`: round half toward positive infinity,
i.e. `⌊q + 1/2⌋`, written with explicit floor division so that it
evaluates inside the kernel. -/
def jsRound (q : ℚ) : ℤ := (q + 1/2).num.fdiv (q + 1/2).den

/-- Inputs of `calculateLoan` (interface `LoanInputs`). -/
structure LoanInputs where
  purchasePrice : ℚ
  downPayment : ℚ
  annualInterestRate : ℚ
  termYears : ℚ
  extraMonthlyPayment : ℚ
  deriving DecidableEq, Repr

/-- One simulated period (interface `AmortizationPoint`). -/
structure AmortizationPoint where
  monthIndex : ℕ
  yearIndex : ℕ
  payment : ℚ
  principalPayment : ℚ
  interestPayment : ℚ
  balance : ℚ
  totalPrincipalPaid : ℚ
  totalInterestPaid : ℚ
  deriving DecidableEq, Repr

/-- Summary of one simulation run (interface `AmortizationResult`). -/
structure AmortizationResult where
  payoffMonths : JNum
  totalInterest : JNum
  totalPayment : JNum
  deriving DecidableEq, Repr

/-- Simulation run output (interface `AmortizationCalculation`). -/
structure AmortizationCalculation where
  summary : AmortizationResult
  schedule : List AmortizationPoint
  deriving DecidableEq, Repr

/-- Base plan of a computation (interface `DetailedAmortization`). -/
structure DetailedAmortization where
  monthlyPayment : ℚ
  totalPayment : JNum
  totalInterest : JNum
  payoffMonths : JNum
  schedule : List AmortizationPoint
  deriving DecidableEq, Repr

/-- Accelerated plan (interface `AcceleratedAmortization`). -/
structure AcceleratedAmortization where
  monthlyPayment : ℚ
  monthlyPaymentWithExtra : ℚ
  totalPayment : JNum
  totalInterest : JNum
  payoffMonths : JNum
  interestSaved : JNum
  monthsSaved : JNum
  schedule : List AmortizationPoint
  deriving DecidableEq, Repr

/-- Result of `calculateLoan` (interface `LoanComputation`). -/
structure LoanComputation where
  principal : ℚ
  downPaymentRatio : ℚ
  base : DetailedAmortization
  accelerated : Option AcceleratedAmortization
  deriving DecidableEq, Repr

/-- Scalar summary of a plan (interface `AmortizationSnapshot`). -/
structure AmortizationSnapshot where
  monthlyPayment : ℚ
  totalPayment : JNum
  totalInterest : JNum
  payoffMonths : JNum
  deriving DecidableEq, Repr

/-- Scalar summary of an accelerated plan
(interface `AcceleratedAmortizationSummary`). -/
structure AcceleratedAmortizationSummary where
  monthlyPayment : ℚ
  monthlyPaymentWithExtra : ℚ
  totalPayment : JNum
  totalInterest : JNum
  payoffMonths : JNum
  interestSaved : JNum
  monthsSaved : JNum
  deriving DecidableEq, Repr

/-- Result of `summarizeLoan` (interface `LoanSummary`). -/
structure LoanSummary where
  principal : ℚ
  downPaymentRatio : ℚ
  base : AmortizationSnapshot
  accelerated : Option AcceleratedAmortizationSummary
  deriving DecidableEq, Repr

/-- `const MAX_MONTHS = 1000 * 12`. -/
def MAX_MONTHS : ℕ := 1000 * 12

/-- `const EPSILON = 1e-6`. -/
def EPSILON : ℚ := 1 / 1000000

/-- The non-convergent result: all summary fields `+∞`, empty schedule. -/
def infCalc : AmortizationCalculation :=
  ⟨⟨JNum.inf, JNum.inf, JNum.inf⟩, []⟩

/-- The `while` loop of `amortize`, with `fuel = MAX_MONTHS - payoffMonths`
(so the guard `payoffMonths < MAX_MONTHS` is `fuel > 0`, and running out of
fuel lands in the post-loop `payoffMonths >= MAX_MONTHS` branch, which
returns the non-convergent result regardless of the balance).
Arguments after `fuel`: current balance, `payoffMonths`, `totalInterest`,
`totalPayment`, schedule so far. -/
def amortizeGo (principal monthlyRate payment : ℚ) :
    ℕ → ℚ → ℕ → ℚ → ℚ → List AmortizationPoint → AmortizationCalculation
  | 0, _, _, _, _, _ => infCalc
  | fuel + 1, balance, payoffMonths, totalInterest, totalPayment, schedule =>
    if balance ≤ EPSILON then
      ⟨⟨JNum.fin payoffMonths, JNum.fin totalInterest, JNum.fin totalPayment⟩,
        schedule⟩
    else
      let interest := if 0 < monthlyRate then balance * monthlyRate else 0
      let totalInterest' := totalInterest + interest
      let principalPayment :=
        if monthlyRate = 0 then payment else payment - interest
      if principalPayment ≤ 0 then infCalc
      else
        let principalPayment' :=
          if balance < principalPayment then balance else principalPayment
        let actualPayment := principalPayment' + interest
        let balance' := balance - principalPayment'
        let payoffMonths' := payoffMonths + 1
        amortizeGo principal monthlyRate payment fuel balance' payoffMonths'
          totalInterest' (totalPayment + actualPayment)
          (schedule ++ [{ monthIndex := payoffMonths'
                          yearIndex := (payoffMonths' - 1) / 12 + 1
                          payment := actualPayment
                          principalPayment := principalPayment'
                          interestPayment := interest
                          balance := max balance' 0
                          totalPrincipalPaid := principal - max balance' 0
                          totalInterestPaid := totalInterest' }])

/-- `function amortize(principal, monthlyRate, scheduledPayment, extraPayment)`. -/
def amortize (principal monthlyRate scheduledPayment extraPayment : ℚ) :
    AmortizationCalculation :=
  if principal ≤ 0 then
    ⟨⟨JNum.fin 0, JNum.fin 0, JNum.fin 0⟩, []⟩
  else
    let payment := scheduledPayment + max 0 extraPayment
    if payment ≤ 0 then infCalc
    else amortizeGo principal monthlyRate payment MAX_MONTHS principal 0 0 0 []

/-- `Math.max(0, inputs.purchasePrice)`. -/
def purchasePriceOf (i : LoanInputs) : ℚ := max 0 i.purchasePrice

/-- `Math.min(Math.max(0, inputs.downPayment), purchasePrice)`. -/
def downPaymentOf (i : LoanInputs) : ℚ :=
  min (max 0 i.downPayment) (purchasePriceOf i)

/-- `Math.max(inputs.termYears, 0.1)`. -/
def termYearsOf (i : LoanInputs) : ℚ := max i.termYears (1/10)

/-- `Math.max(purchasePrice - downPayment, 0)`. -/
def principalOf (i : LoanInputs) : ℚ :=
  max (purchasePriceOf i - downPaymentOf i) 0

/-- `Math.max(Math.round(termYears * 12), 1)`. -/
def monthsOf (i : LoanInputs) : ℕ :=
  (max (jsRound (termYearsOf i * 12)) 1).toNat

/-- `Math.max(inputs.annualInterestRate, 0) / 100 / 12`. -/
def monthlyRateOf (i : LoanInputs) : ℚ :=
  max i.annualInterestRate 0 / 100 / 12

/-- `Math.max(inputs.extraMonthlyPayment, 0)`. -/
def extraPaymentOf (i : LoanInputs) : ℚ := max i.extraMonthlyPayment 0

/-- The scheduled payment (closed-form annuity formula, zero when the
principal is zero, linear division when the rate is zero). -/
def scheduledPaymentOf (i : LoanInputs) : ℚ :=
  if 0 < principalOf i then
    if monthlyRateOf i = 0 then principalOf i / monthsOf i
    else
      let rateFactor := (1 + monthlyRateOf i) ^ monthsOf i
      principalOf i * monthlyRateOf i * rateFactor / (rateFactor - 1)
  else 0

/-- The base simulation run of `calculateLoan`. -/
def baseCalcOf (i : LoanInputs) : AmortizationCalculation :=
  amortize (principalOf i) (monthlyRateOf i) (scheduledPaymentOf i) 0

/-- The accelerated simulation run of `calculateLoan`
(`undefined` unless `extraPayment > 0`). -/
def accCalcOf (i : LoanInputs) : Option AmortizationCalculation :=
  if 0 < extraPaymentOf i then
    some (amortize (principalOf i) (monthlyRateOf i) (scheduledPaymentOf i)
      (extraPaymentOf i))
  else none

/-- `export function calculateLoan(inputs)`. -/
def calculateLoan (i : LoanInputs) : LoanComputation :=
  let base : DetailedAmortization :=
    { monthlyPayment := scheduledPaymentOf i
      totalPayment := (baseCalcOf i).summary.totalPayment
      totalInterest := (baseCalcOf i).summary.totalInterest
      payoffMonths := (baseCalcOf i).summary.payoffMonths
      schedule := (baseCalcOf i).schedule }
  let accelerated : Option AcceleratedAmortization :=
    match accCalcOf i with
    | none => none
    | some acc =>
      if acc.summary.payoffMonths.isFinite then
        some { monthlyPayment := scheduledPaymentOf i
               monthlyPaymentWithExtra := scheduledPaymentOf i + extraPaymentOf i
               totalPayment := acc.summary.totalPayment
               totalInterest := acc.summary.totalInterest
               payoffMonths := acc.summary.payoffMonths
               interestSaved :=
                 (JNum.sub (baseCalcOf i).summary.totalInterest
                   acc.summary.totalInterest).max0
               monthsSaved :=
                 (JNum.sub (baseCalcOf i).summary.payoffMonths
                   acc.summary.payoffMonths).max0
               schedule := acc.schedule }
      else none
  { principal := principalOf i
    downPaymentRatio :=
      if 0 < purchasePriceOf i then downPaymentOf i / purchasePriceOf i else 0
    base := base
    accelerated := accelerated }

/-- `export const summarizeLoan = (details) => ...`. -/
def summarizeLoan (details : LoanComputation) : LoanSummary :=
  { principal := details.principal
    downPaymentRatio := details.downPaymentRatio
    base := { monthlyPayment := details.base.monthlyPayment
              totalPayment := details.base.totalPayment
              totalInterest := details.base.totalInterest
              payoffMonths := details.base.payoffMonths }
    accelerated :=
      match details.accelerated with
      | some a =>
        some { monthlyPayment := a.monthlyPayment
               monthlyPaymentWithExtra := a.monthlyPaymentWithExtra
               totalPayment := a.totalPayment
               totalInterest := a.totalInterest
               payoffMonths := a.payoffMonths
               interestSaved := a.interestSaved
               monthsSaved := a.monthsSaved }
      | none => none }

/-- Result type of `monthsToYearsMonths`. -/
structure YearsMonths where
  years : ℕ
  months : ℕ
  deriving DecidableEq, Repr

/-- `export function monthsToYearsMonths(months)`. -/
def monthsToYearsMonths (months : JNum) : YearsMonths :=
  match months with
  | JNum.fin q =>
    let wholeMonths := (max (jsRound q) 0).toNat
    { years := wholeMonths / 12, months := wholeMonths % 12 }
  | _ => { years := 0, months := 0 }

/-- Specification-side classification of how the `amortize` loop ends. -/
inductive RunOutcome where
  | paidOff
  | negAm
  | ceiling
  deriving DecidableEq, Repr

/-- Specification-side replay of the `amortize` loop that reports how the
loop ends when the spec reads "the iteration ceiling is reached before
payoff": running out of fuel with the balance already inside the epsilon
is classified as `paidOff`, not `ceiling`. -/
def loopClass (monthlyRate payment : ℚ) : ℕ → ℚ → RunOutcome
  | 0, balance => if EPSILON < balance then RunOutcome.ceiling else RunOutcome.paidOff
  | fuel + 1, balance =>
    if balance ≤ EPSILON then RunOutcome.paidOff
    else
      let interest := if 0 < monthlyRate then balance * monthlyRate else 0
      let principalPayment :=
        if monthlyRate = 0 then payment else payment - interest
      if principalPayment ≤ 0 then RunOutcome.negAm
      else
        loopClass monthlyRate payment fuel
          (balance - if balance < principalPayment then balance else principalPayment)

/-- Specification-side replay of the `amortize` loop that classifies any run
consuming the full iteration budget as `ceiling`, even when the balance is
paid off exactly at the last allowed period (which is what the code's
post-loop `payoffMonths >= MAX_MONTHS` check does). -/
def loopExit (monthlyRate payment : ℚ) : ℕ → ℚ → RunOutcome
  | 0, _ => RunOutcome.ceiling
  | fuel + 1, balance =>
    if balance ≤ EPSILON then RunOutcome.paidOff
    else
      let interest := if 0 < monthlyRate then balance * monthlyRate else 0
      let principalPayment :=
        if monthlyRate = 0 then payment else payment - interest
      if principalPayment ≤ 0 then RunOutcome.negAm
      else
        loopExit monthlyRate payment fuel
          (balance - if balance < principalPayment then balance else principalPayment)

/-- Per-point schedule invariants: the principal and interest components
add up to the recorded payment, cumulative principal paid plus remaining
balance reconstruct the original principal, and the recorded balance is
non-negative. -/
def pointsOk (principal : ℚ) (sch : List AmortizationPoint) : Prop :=
  ∀ pt ∈ sch,
    pt.principalPayment + pt.interestPayment = pt.payment ∧
    pt.totalPrincipalPaid + pt.balance = principal ∧
    0 ≤ pt.balance

/-- The recorded balances of consecutive schedule points are non-increasing. -/
def balancesMono (sch : List AmortizationPoint) : Prop :=
  List.Chain' (fun a b => b.balance ≤ a.balance) sch

/-- The final recorded balance (if any) is inside the termination epsilon. -/
def lastSmall (sch : List AmortizationPoint) : Prop :=
  ∀ pt, sch.getLast? = some pt → pt.balance ≤ EPSILON ∧ 0 ≤ pt.balance

/-! ### Structural lemmas about the simulation loop -/

theorem amortizeGo_inf_shape (P r q : ℚ) (fuel : ℕ) :
    ∀ (bal : ℚ) (m : ℕ) (ti tp : ℚ) (sch : List AmortizationPoint),
      (amortizeGo P r q fuel bal m ti tp sch).summary.payoffMonths = JNum.inf →
      amortizeGo P r q fuel bal m ti tp sch = infCalc := by
  induction fuel with
  | zero => intro bal m ti tp sch _; rfl
  | succ fuel ih =>
    intro bal m ti tp sch h
    simp only [amortizeGo] at h ⊢
    split_ifs at h ⊢ <;>
      first
        | rfl
        | exact ih _ _ _ _ _ h

theorem amortizeGo_fin_or_inf (P r q : ℚ) (fuel : ℕ) :
    ∀ (bal : ℚ) (m : ℕ) (ti tp : ℚ) (sch : List AmortizationPoint),
      amortizeGo P r q fuel bal m ti tp sch = infCalc ∨
      ∃ n : ℕ, ∃ t p : ℚ,
        (amortizeGo P r q fuel bal m ti tp sch).summary =
          ⟨JNum.fin n, JNum.fin t, JNum.fin p⟩ := by
  induction fuel with
  | zero => intro bal m ti tp sch; exact Or.inl rfl
  | succ fuel ih =>
    intro bal m ti tp sch
    simp only [amortizeGo]
    split_ifs <;>
      first
        | exact Or.inl rfl
        | exact Or.inr ⟨m, ti, tp, rfl⟩
        | exact ih _ _ _ _ _

theorem amortizeGo_inf_iff_exit (P r q : ℚ) (fuel : ℕ) :
    ∀ (bal : ℚ) (m : ℕ) (ti tp : ℚ) (sch : List AmortizationPoint),
      (amortizeGo P r q fuel bal m ti tp sch).summary.payoffMonths = JNum.inf ↔
        (loopExit r q fuel bal = RunOutcome.negAm ∨
          loopExit r q fuel bal = RunOutcome.ceiling) := by
  induction fuel with
  | zero =>
    intro bal m ti tp sch
    simp [amortizeGo, loopExit, infCalc]
  | succ fuel ih =>
    intro bal m ti tp sch
    simp only [amortizeGo, loopExit]
    split_ifs <;>
      first
        | exact ih _ _ _ _ _
        | simp [infCalc]

theorem amortizeGo_inf_of_big (P r q : ℚ) (hr : 0 ≤ r) (hq : 0 < q) (fuel : ℕ) :
    ∀ (bal : ℚ) (m : ℕ) (ti tp : ℚ) (sch : List AmortizationPoint),
      EPSILON + fuel * q < bal + q →
      amortizeGo P r q fuel bal m ti tp sch = infCalc := by
  induction fuel with
  | zero => intro bal m ti tp sch _; rfl
  | succ fuel ih =>
    intro bal m ti tp sch hbig
    have hfq : 0 ≤ (fuel : ℚ) * q := mul_nonneg (Nat.cast_nonneg fuel) hq.le
    have hcast : ((fuel : ℕ) + 1 : ℚ) * q = (fuel : ℚ) * q + q := by ring
    have hbal : EPSILON + (fuel : ℚ) * q < bal := by push_cast at hbig; linarith
    have hEbal : ¬ bal ≤ EPSILON := by
      have : (0:ℚ) < EPSILON := by norm_num [EPSILON]
      linarith
    have hbr : 0 ≤ bal * r := by
      have : (0:ℚ) < EPSILON := by norm_num [EPSILON]
      exact mul_nonneg (by linarith) hr
    simp only [amortizeGo]
    split_ifs with h1 h2 h3 h4 h5 h6 h7 h8 <;>
      first
        | rfl
        | (exact absurd h1 hEbal)
        | (apply ih <;> push_cast <;> nlinarith)

theorem loopClass_paidOff_zero_rate (q : ℚ) (hq : 0 < q) (fuel : ℕ) :
    ∀ bal : ℚ, 0 ≤ bal → bal ≤ EPSILON + fuel * q →
      loopClass 0 q fuel bal = RunOutcome.paidOff := by
  induction fuel with
  | zero =>
    intro bal _ hsmall
    simp only [loopClass]
    rw [if_neg]
    push_cast at hsmall
    linarith
  | succ fuel ih =>
    intro bal hpos hsmall
    have hfq : 0 ≤ (fuel : ℚ) * q := mul_nonneg (Nat.cast_nonneg fuel) hq.le
    have hE : (0:ℚ) < EPSILON := by norm_num [EPSILON]
    simp only [loopClass]
    split_ifs with h1 h2 h3 <;>
      first
        | rfl
        | linarith
        | (apply ih <;> push_cast at hsmall ⊢ <;> linarith)

theorem pointsOk_append {P : ℚ} {sch : List AmortizationPoint}
    {pt : AmortizationPoint} (h : pointsOk P sch)
    (h1 : pt.principalPayment + pt.interestPayment = pt.payment)
    (h2 : pt.totalPrincipalPaid + pt.balance = P)
    (h3 : 0 ≤ pt.balance) : pointsOk P (sch ++ [pt]) := by
  intro x hx
  rcases List.mem_append.1 hx with hx | hx
  · exact h x hx
  · rcases List.mem_singleton.1 hx with rfl
    exact ⟨h1, h2, h3⟩

theorem balancesMono_append {sch : List AmortizationPoint}
    {pt : AmortizationPoint} (h : balancesMono sch)
    (hlast : ∀ x, sch.getLast? = some x → pt.balance ≤ x.balance) :
    balancesMono (sch ++ [pt]) := by
  refine List.Chain'.append h (List.chain'_singleton pt) ?_
  intro x hx y hy
  simp only [List.head?_cons, Option.mem_def, Option.some.injEq] at hy
  subst hy
  exact hlast x hx

/-- Invariant-propagation through the `amortize` loop: either the run
diverges (and returns the all-infinite result), or the reported payoff
month count equals the schedule length, every point satisfies the
per-point invariants, the recorded balances are non-increasing, and the
final recorded balance lies inside the termination epsilon. -/
theorem amortizeGo_invariant (P r q : ℚ) (fuel : ℕ) :
    ∀ (bal : ℚ) (m : ℕ) (ti tp : ℚ) (sch : List AmortizationPoint),
      0 ≤ bal →
      sch.length = m →
      pointsOk P sch →
      balancesMono sch →
      (∀ pt, sch.getLast? = some pt → pt.balance = max bal 0) →
      amortizeGo P r q fuel bal m ti tp sch = infCalc ∨
        ((amortizeGo P r q fuel bal m ti tp sch).summary.payoffMonths =
            JNum.fin ((amortizeGo P r q fuel bal m ti tp sch).schedule.length : ℚ) ∧
          pointsOk P (amortizeGo P r q fuel bal m ti tp sch).schedule ∧
          balancesMono (amortizeGo P r q fuel bal m ti tp sch).schedule ∧
          lastSmall (amortizeGo P r q fuel bal m ti tp sch).schedule) := by
  induction fuel with
  | zero => intro bal m ti tp sch _ _ _ _ _; exact Or.inl rfl
  | succ fuel ih =>
    intro bal m ti tp sch hbal hlen hpts hmono hlast
    have hE0 : (0:ℚ) < EPSILON := by norm_num [EPSILON]
    simp only [amortizeGo]
    by_cases hE : bal ≤ EPSILON
    · rw [if_pos hE]
      refine Or.inr ⟨by simp [hlen], hpts, hmono, ?_⟩
      intro pt hpt
      have hb := hlast pt hpt
      constructor
      · rw [hb]; exact max_le hE hE0.le
      · rw [hb]; exact le_max_right _ _
    · rw [if_neg hE]
      split_ifs with h1 h2 h3 h4 h5 h6
      all_goals
        first
          | exact Or.inl rfl
          | (refine ih _ _ _ _ _ (by linarith) (by simp [hlen]) ?_ ?_ ?_
             · refine pointsOk_append hpts rfl (by ring) (le_max_right _ _)
             · refine balancesMono_append hmono ?_
               intro x hx
               rw [hlast x hx]
               refine max_le_max ?_ le_rfl
               linarith
             · intro pt hpt
               simp only [List.getLast?_append, List.getLast?_singleton,
                 Option.or_some, Option.some.injEq] at hpt
               subst hpt
               rfl)

theorem JNum.le_fin_fin {a b : ℚ} : (JNum.fin a).Le (JNum.fin b) ↔ a ≤ b := by
  simp [JNum.Le, JNum.ble]

theorem JNum.fin_le_inf {a : ℚ} : (JNum.fin a).Le JNum.inf := by
  simp [JNum.Le, JNum.ble]

theorem JNum.inf_le_inf : JNum.inf.Le JNum.inf := by
  simp [JNum.Le, JNum.ble]

theorem JNum.lt_fin_fin {a b : ℚ} : (JNum.fin a).Lt (JNum.fin b) ↔ a < b := by
  simp [JNum.Lt, JNum.blt]

theorem JNum.fin_lt_inf {a : ℚ} : (JNum.fin a).Lt JNum.inf := by
  simp [JNum.Lt, JNum.blt]

/-- The payoff counter only grows along the loop, and accumulated interest
only grows (the balance being positive whenever the loop takes a step and
the rate non-negative). -/
theorem amortizeGo_counter_le (P r q : ℚ) (hr : 0 ≤ r) (fuel : ℕ) :
    ∀ (bal : ℚ) (m : ℕ) (ti tp : ℚ) (sch : List AmortizationPoint),
      (∀ n : ℚ,
        (amortizeGo P r q fuel bal m ti tp sch).summary.payoffMonths = JNum.fin n →
        (m : ℚ) ≤ n) ∧
      (∀ t : ℚ,
        (amortizeGo P r q fuel bal m ti tp sch).summary.totalInterest = JNum.fin t →
        ti ≤ t) := by
  induction fuel with
  | zero =>
    intro bal m ti tp sch
    constructor <;> intro x hx <;> simp [amortizeGo, infCalc] at hx
  | succ fuel ih =>
    intro bal m ti tp sch
    simp only [amortizeGo]
    split_ifs with h1 h2 h3 h4 h5 h6
    · constructor <;> intro x hx <;>
        simp only [JNum.fin.injEq] at hx <;> subst hx
      · exact le_refl _
      · exact le_refl _
    all_goals
      have hbal : (0:ℚ) < bal := lt_of_le_of_lt (by norm_num [EPSILON]) (not_le.1 h1)
    all_goals
      first
        | (constructor <;> intro x hx <;> (exfalso; simp [infCalc] at hx; done))
        | (constructor
           · intro x hx
             have h9 := (ih _ (m + 1) _ _ _).1 x hx
             push_cast at h9 ⊢
             linarith
           · intro x hx
             have h9 := (ih _ (m + 1) _ _ _).2 x hx
             have hint : (0:ℚ) ≤ bal * r := mul_nonneg hbal.le hr
             linarith)

theorem amortizeGo_payoff_le_inf (P r q : ℚ) (fuel : ℕ) (bal : ℚ) (m : ℕ)
    (ti tp : ℚ) (sch : List AmortizationPoint) :
    JNum.Le (amortizeGo P r q fuel bal m ti tp sch).summary.payoffMonths
      JNum.inf := by
  rcases amortizeGo_fin_or_inf P r q fuel bal m ti tp sch with h | ⟨n, t, p, h⟩ <;>
    simp [h, infCalc, JNum.Le, JNum.ble]

theorem amortizeGo_ti_le_inf (P r q : ℚ) (fuel : ℕ) (bal : ℚ) (m : ℕ)
    (ti tp : ℚ) (sch : List AmortizationPoint) :
    JNum.Le (amortizeGo P r q fuel bal m ti tp sch).summary.totalInterest
      JNum.inf := by
  rcases amortizeGo_fin_or_inf P r q fuel bal m ti tp sch with h | ⟨n, t, p, h⟩ <;>
    simp [h, infCalc, JNum.Le, JNum.ble]

/-- Coupling of two loop runs at the same rate: the run with the larger
payment and the no-larger starting balance and accumulated interest pays
off no later and accrues no more total interest. -/
theorem amortizeGo_mono (P P' r q q' : ℚ) (hr : 0 ≤ r) (hqq : q ≤ q')
    (fuel : ℕ) :
    ∀ (bal bal' : ℚ) (m : ℕ) (ti ti' tp tp' : ℚ)
      (sch sch' : List AmortizationPoint),
      bal' ≤ bal → ti' ≤ ti →
      JNum.Le (amortizeGo P' r q' fuel bal' m ti' tp' sch').summary.payoffMonths
        (amortizeGo P r q fuel bal m ti tp sch).summary.payoffMonths ∧
      JNum.Le (amortizeGo P' r q' fuel bal' m ti' tp' sch').summary.totalInterest
        (amortizeGo P r q fuel bal m ti tp sch).summary.totalInterest := by
  induction fuel with
  | zero =>
    intro bal bal' m ti ti' tp tp' sch sch' _ _
    exact ⟨JNum.inf_le_inf, JNum.inf_le_inf⟩
  | succ fuel ih =>
    intro bal bal' m ti ti' tp tp' sch sch' hbb htt
    by_cases hEa : bal' ≤ EPSILON
    · have ha : amortizeGo P' r q' (fuel + 1) bal' m ti' tp' sch' =
          ⟨⟨JNum.fin m, JNum.fin ti', JNum.fin tp'⟩, sch'⟩ := by
        simp only [amortizeGo]
        rw [if_pos hEa]
      rw [ha]
      rcases amortizeGo_fin_or_inf P r q (fuel + 1) bal m ti tp sch with
        hb | ⟨n, t, p, hb⟩
      · rw [hb]
        exact ⟨JNum.fin_le_inf, JNum.fin_le_inf⟩
      · have hmn := (amortizeGo_counter_le P r q hr (fuel + 1) bal m ti tp sch).1
          n (by rw [hb])
        have hti := (amortizeGo_counter_le P r q hr (fuel + 1) bal m ti tp sch).2
          t (by rw [hb])
        constructor
        · rw [show (amortizeGo P r q (fuel + 1) bal m ti tp sch).summary.payoffMonths
              = JNum.fin n from by rw [hb]]
          exact JNum.le_fin_fin.2 hmn
        · rw [show (amortizeGo P r q (fuel + 1) bal m ti tp sch).summary.totalInterest
              = JNum.fin t from by rw [hb]]
          exact JNum.le_fin_fin.2 (le_trans htt hti)
    · have hEb : ¬ bal ≤ EPSILON := fun h => hEa (le_trans hbb h)
      have hbpos : (0:ℚ) < bal' :=
        lt_of_le_of_lt (by norm_num [EPSILON]) (not_le.1 hEa)
      have hMul : bal' * r ≤ bal * r := mul_le_mul_of_nonneg_right hbb hr
      have hMposA : (0:ℚ) ≤ bal' * r := mul_nonneg hbpos.le hr
      simp only [amortizeGo]
      rw [if_neg hEa, if_neg hEb]
      split_ifs <;>
        first
          | exact ⟨JNum.inf_le_inf, JNum.inf_le_inf⟩
          | exact ⟨amortizeGo_payoff_le_inf _ _ _ _ _ _ _ _ _,
              amortizeGo_ti_le_inf _ _ _ _ _ _ _ _ _⟩
          | (exfalso; linarith)
          | (refine ih _ _ _ _ _ _ _ _ _ ?_ ?_ <;> linarith)

/-- Strict coupling: if the run with the larger payment (and no-larger
starting balance and accumulated interest) pays off strictly earlier than
the other run, it accrues strictly less total interest, provided the rate
is positive. -/
theorem amortizeGo_mono_strict (P P' r q q' : ℚ) (hr : 0 < r) (hqq : q ≤ q')
    (fuel : ℕ) :
    ∀ (bal bal' : ℚ) (m : ℕ) (ti ti' tp tp' : ℚ)
      (sch sch' : List AmortizationPoint),
      bal' ≤ bal → ti' ≤ ti →
      ∀ (n n' t t' : ℚ),
        (amortizeGo P r q fuel bal m ti tp sch).summary.payoffMonths =
          JNum.fin n →
        (amortizeGo P' r q' fuel bal' m ti' tp' sch').summary.payoffMonths =
          JNum.fin n' →
        n' < n →
        (amortizeGo P r q fuel bal m ti tp sch).summary.totalInterest =
          JNum.fin t →
        (amortizeGo P' r q' fuel bal' m ti' tp' sch').summary.totalInterest =
          JNum.fin t' →
        t' < t := by
  induction fuel with
  | zero =>
    intro bal bal' m ti ti' tp tp' sch sch' _ _ n n' t t' hn _ _ _ _
    simp [amortizeGo, infCalc] at hn
  | succ fuel ih =>
    intro bal bal' m ti ti' tp tp' sch sch' hbb htt n n' t t' hn hn' hlt ht ht'
    have hE0 : (0:ℚ) < EPSILON := by norm_num [EPSILON]
    have hMul : bal' * r ≤ bal * r := mul_le_mul_of_nonneg_right hbb hr.le
    by_cases hEa : bal' ≤ EPSILON
    · by_cases hEb : bal ≤ EPSILON
      · rw [amortizeGo, if_pos hEb] at hn
        rw [amortizeGo, if_pos hEa] at hn'
        simp only [JNum.fin.injEq] at hn hn'
        exact absurd hlt (by rw [← hn, ← hn']; exact lt_irrefl _)
      · rw [amortizeGo, if_pos hEa] at ht'
        simp only [JNum.fin.injEq] at ht'
        rw [amortizeGo, if_neg hEb] at ht
        simp only [] at ht
        have hbpos : (0:ℚ) < bal := lt_trans hE0 (not_le.1 hEb)
        have hir : 0 < bal * r := mul_pos hbpos hr
        split_ifs at ht <;>
          first
            | (exfalso; simp [infCalc] at ht; done)
            | (have h9 :=
                (amortizeGo_counter_le P r q hr.le fuel _ _ _ _ _).2 t ht
               linarith)
    · have hEb : ¬ bal ≤ EPSILON := fun h => hEa (le_trans hbb h)
      rw [amortizeGo, if_neg hEb] at hn ht
      rw [amortizeGo, if_neg hEa] at hn' ht'
      simp only [] at hn ht hn' ht'
      split_ifs at hn ht hn' ht' <;>
        first
          | (exfalso; simp [infCalc] at hn; done)
          | (exfalso; simp [infCalc] at hn'; done)
          | (refine ih _ _ _ _ _ _ _ _ _ ?_ ?_ n n' t t' hn hn' hlt ht ht' <;>
              linarith)

/-- Zero-rate runs accrue no interest. -/
theorem amortizeGo_zero_rate_ti (P q : ℚ) (fuel : ℕ) :
    ∀ (bal : ℚ) (m : ℕ) (ti tp : ℚ) (sch : List AmortizationPoint) (t : ℚ),
      (amortizeGo P 0 q fuel bal m ti tp sch).summary.totalInterest =
        JNum.fin t → t = ti := by
  induction fuel with
  | zero =>
    intro bal m ti tp sch t hx
    simp [amortizeGo, infCalc] at hx
  | succ fuel ih =>
    intro bal m ti tp sch t hx
    simp only [amortizeGo] at hx
    split_ifs at hx
    · simpa using hx.symm
    all_goals
      first
        | (exfalso; simp [infCalc] at hx; done)
        | (have h9 := ih _ _ _ _ _ t hx; linarith)

/-- Zero-rate runs conserve money: the reported total payment is the
starting total payment plus the (clamped) starting balance, up to the
termination epsilon. -/
theorem amortizeGo_zero_rate_tp (P q : ℚ) (fuel : ℕ) :
    ∀ (bal : ℚ) (m : ℕ) (ti tp : ℚ) (sch : List AmortizationPoint) (t : ℚ),
      (amortizeGo P 0 q fuel bal m ti tp sch).summary.totalPayment =
        JNum.fin t →
      tp + max bal 0 - EPSILON ≤ t ∧ t ≤ tp + max bal 0 := by
  induction fuel with
  | zero =>
    intro bal m ti tp sch t hx
    simp [amortizeGo, infCalc] at hx
  | succ fuel ih =>
    intro bal m ti tp sch t hx
    have hE0 : (0:ℚ) < EPSILON := by norm_num [EPSILON]
    simp only [amortizeGo] at hx
    split_ifs at hx with h1 h2 h3
    · have ht : t = tp := by simpa using hx.symm
      subst ht
      rw [max_def]
      constructor <;> split_ifs <;> linarith
    all_goals
      first
        | (exfalso; simp [infCalc] at hx; done)
        | (obtain ⟨hl, hu⟩ := ih _ _ _ _ _ t hx
           rw [max_def] at hl hu ⊢
           constructor <;> (split_ifs at hl hu ⊢ <;> linarith))

/-- Zero-rate runs converge whenever the starting balance fits inside the
remaining iteration budget. -/
theorem amortizeGo_zero_rate_fin (P q : ℚ) (hq : 0 < q) (fuel : ℕ) :
    ∀ (bal : ℚ) (m : ℕ) (ti tp : ℚ) (sch : List AmortizationPoint),
      bal ≤ EPSILON + fuel * q →
      (amortizeGo P 0 q (fuel + 1) bal m ti tp sch).summary.payoffMonths.isFinite
        = true := by
  induction fuel with
  | zero =>
    intro bal m ti tp sch hsmall
    have hE : bal ≤ EPSILON := by push_cast at hsmall; linarith
    rw [amortizeGo, if_pos hE]
    rfl
  | succ fuel ih =>
    intro bal m ti tp sch hsmall
    have hE0 : (0:ℚ) < EPSILON := by norm_num [EPSILON]
    have hfq : 0 ≤ (fuel : ℚ) * q := mul_nonneg (Nat.cast_nonneg fuel) hq.le
    by_cases hE : bal ≤ EPSILON
    · rw [amortizeGo, if_pos hE]
      rfl
    · rw [amortizeGo, if_neg hE]
      push_cast at hsmall
      simp only []
      split_ifs with h1 h2 h3 <;>
        first
          | (exfalso; linarith)
          | (refine ih _ _ _ _ _ ?_ <;> push_cast <;> linarith)

/-- The accelerated simulation run (the second `amortize` call of
`calculateLoan`), independent of whether `calculateLoan` keeps it. -/
def accRunOf (i : LoanInputs) : AmortizationCalculation :=
  amortize (principalOf i) (monthlyRateOf i) (scheduledPaymentOf i)
    (extraPaymentOf i)

theorem monthsOf_pos (i : LoanInputs) : 1 ≤ monthsOf i := by
  have h : (1:ℤ) ≤ max (jsRound (termYearsOf i * 12)) 1 := le_max_right _ _
  have := Int.toNat_le_toNat h
  simpa [monthsOf] using this

theorem monthlyRateOf_nonneg (i : LoanInputs) : 0 ≤ monthlyRateOf i := by
  unfold monthlyRateOf
  positivity

theorem scheduledPaymentOf_pos (i : LoanInputs) (hP : 0 < principalOf i) :
    0 < scheduledPaymentOf i := by
  unfold scheduledPaymentOf
  rw [if_pos hP]
  have hm : 0 < (monthsOf i : ℚ) := by
    have := monthsOf_pos i
    exact_mod_cast Nat.lt_of_lt_of_le Nat.zero_lt_one this
  by_cases hr : monthlyRateOf i = 0
  · rw [if_pos hr]
    positivity
  · rw [if_neg hr]
    have hr' : 0 < monthlyRateOf i := lt_of_le_of_ne (monthlyRateOf_nonneg i)
      (Ne.symm hr)
    have hF : 1 < (1 + monthlyRateOf i) ^ monthsOf i := by
      refine one_lt_pow (by linarith) ?_
      have := monthsOf_pos i
      omega
    have hF1 : 0 < (1 + monthlyRateOf i) ^ monthsOf i - 1 := by linarith
    have hnum : 0 < principalOf i * monthlyRateOf i *
        (1 + monthlyRateOf i) ^ monthsOf i := by positivity
    exact div_pos hnum hF1

/-- Schedule well-formedness of a single `amortize` run. -/
theorem amortize_schedule_ok (P r s e : ℚ) :
    ((amortize P r s e).summary.payoffMonths.isFinite = true →
      (amortize P r s e).summary.payoffMonths =
        JNum.fin ((amortize P r s e).schedule.length : ℚ)) ∧
    balancesMono (amortize P r s e).schedule ∧
    (∀ pt ∈ (amortize P r s e).schedule,
      pt.principalPayment + pt.interestPayment = pt.payment) ∧
    lastSmall (amortize P r s e).schedule := by
  rw [amortize]
  simp only []
  split_ifs with hP hq
  · refine ⟨fun _ => by simp, List.chain'_nil, ?_, ?_⟩
    · intro pt hpt; cases hpt
    · intro pt hpt; cases hpt
  · refine ⟨fun h => by simp [infCalc, JNum.isFinite] at h, List.chain'_nil, ?_, ?_⟩
    · intro pt hpt; simp [infCalc] at hpt
    · intro pt hpt; simp [infCalc] at hpt
  · have hinv := amortizeGo_invariant P r (s + max 0 e) MAX_MONTHS P 0 0 0 []
      (by linarith) rfl (by intro pt hpt; cases hpt) List.chain'_nil
      (by intro pt hpt; simp at hpt)
    rcases hinv with h | ⟨hlen, hpts, hmono, hlast⟩
    · rw [h]
      refine ⟨fun hfin => by simp [infCalc, JNum.isFinite] at hfin,
        List.chain'_nil, ?_, ?_⟩
      · intro pt hpt; simp [infCalc] at hpt
      · intro pt hpt; simp [infCalc] at hpt
    · exact ⟨fun _ => hlen, hmono, fun pt hpt => (hpts pt hpt).1,
        hlast⟩

/-- Conservation of principal on every `amortize` schedule point. -/
theorem amortize_conservation (P r s e : ℚ) :
    ∀ pt ∈ (amortize P r s e).schedule,
      pt.totalPrincipalPaid + pt.balance = P := by
  rw [amortize]
  simp only []
  split_ifs with hP hq
  · intro pt hpt; cases hpt
  · intro pt hpt; simp [infCalc] at hpt
  · have hinv := amortizeGo_invariant P r (s + max 0 e) MAX_MONTHS P 0 0 0 []
      (by linarith) rfl (by intro pt hpt; cases hpt) List.chain'_nil
      (by intro pt hpt; simp at hpt)
    rcases hinv with h | ⟨_, hpts, _, _⟩
    · rw [h]; intro pt hpt; simp [infCalc] at hpt
    · intro pt hpt; exact (hpts pt hpt).2.1

/-- Inversion of the construction of the `accelerated` field of
`calculateLoan`. -/
theorem calculateLoan_accel_some (i : LoanInputs) (a : AcceleratedAmortization)
    (h : (calculateLoan i).accelerated = some a) :
    0 < extraPaymentOf i ∧
    (accRunOf i).summary.payoffMonths.isFinite = true ∧
    a = { monthlyPayment := scheduledPaymentOf i
          monthlyPaymentWithExtra := scheduledPaymentOf i + extraPaymentOf i
          totalPayment := (accRunOf i).summary.totalPayment
          totalInterest := (accRunOf i).summary.totalInterest
          payoffMonths := (accRunOf i).summary.payoffMonths
          interestSaved :=
            (JNum.sub (baseCalcOf i).summary.totalInterest
              (accRunOf i).summary.totalInterest).max0
          monthsSaved :=
            (JNum.sub (baseCalcOf i).summary.payoffMonths
              (accRunOf i).summary.payoffMonths).max0
          schedule := (accRunOf i).schedule } := by
  unfold calculateLoan accCalcOf at h
  by_cases hx : 0 < extraPaymentOf i
  · rw [if_pos hx] at h
    simp only at h
    split_ifs at h with hfin
    simp only [Option.some.injEq] at h
    exact ⟨hx, hfin, h.symm⟩
  · rw [if_neg hx] at h
    cases h

/-- The `accelerated` field is absent when the clamped extra payment is
not positive. -/
theorem calculateLoan_accel_none_of_no_extra (i : LoanInputs)
    (hx : ¬ 0 < extraPaymentOf i) : (calculateLoan i).accelerated = none := by
  unfold calculateLoan accCalcOf
  rw [if_neg hx]

/-- The `accelerated` field is absent when the accelerated run diverges. -/
theorem calculateLoan_accel_none_of_div (i : LoanInputs)
    (hfin : ¬ (accRunOf i).summary.payoffMonths.isFinite = true) :
    (calculateLoan i).accelerated = none := by
  unfold accRunOf at hfin
  unfold calculateLoan accCalcOf
  by_cases hx : 0 < extraPaymentOf i
  · rw [if_pos hx]
    simp only
    rw [if_neg hfin]
  · rw [if_neg hx]

/-- The `accelerated` field is present when the extra payment is positive
and the accelerated run converges. -/
theorem calculateLoan_accel_isSome (i : LoanInputs)
    (hx : 0 < extraPaymentOf i)
    (hfin : (accRunOf i).summary.payoffMonths.isFinite = true) :
    (calculateLoan i).accelerated.isSome = true := by
  unfold accRunOf at hfin
  unfold calculateLoan accCalcOf
  rw [if_pos hx]
  simp only
  rw [if_pos hfin]
  rfl

/-- The base plan's fields of `calculateLoan` are the base run's summary
fields (definitional, stated once to avoid re-deriving it at concrete
inputs). -/
theorem calculateLoan_base_totalInterest (i : LoanInputs) :
    (calculateLoan i).base.totalInterest =
      (baseCalcOf i).summary.totalInterest := rfl

/-! ### Claim theorems -/

/-- C8: `summarizeLoan` is a pure projection: every scalar field of the
base plan, the principal and the down-payment ratio are copied unchanged,
the accelerated summary is present exactly when the accelerated plan is
present and copies all its scalar fields, and the result type
(`LoanSummary`) carries no per-period schedule array. -/
theorem summarizeLoan_projection :
    ∀ c : LoanComputation,
      (summarizeLoan c).principal = c.principal ∧
      (summarizeLoan c).downPaymentRatio = c.downPaymentRatio ∧
      (summarizeLoan c).base.monthlyPayment = c.base.monthlyPayment ∧
      (summarizeLoan c).base.totalPayment = c.base.totalPayment ∧
      (summarizeLoan c).base.totalInterest = c.base.totalInterest ∧
      (summarizeLoan c).base.payoffMonths = c.base.payoffMonths ∧
      ((summarizeLoan c).accelerated.isSome = true ↔
        c.accelerated.isSome = true) ∧
      (∀ a, c.accelerated = some a →
        (summarizeLoan c).accelerated =
          some ⟨a.monthlyPayment, a.monthlyPaymentWithExtra, a.totalPayment,
            a.totalInterest, a.payoffMonths, a.interestSaved,
            a.monthsSaved⟩) := by
  intro c
  refine ⟨rfl, rfl, rfl, rfl, rfl, rfl, ?_, ?_⟩
  · cases h : c.accelerated <;> simp [summarizeLoan, h]
  · intro a ha
    simp [summarizeLoan, ha]

/-- Witness for C8 at a concrete computation with an accelerated plan. -/
theorem summarizeLoan_projection_witness :
    (summarizeLoan
        ⟨5, 0, ⟨7, JNum.fin 9, JNum.fin 0, JNum.fin 2, []⟩,
          some ⟨7, 8, JNum.fin 9, JNum.fin 1, JNum.fin 2, JNum.fin 3,
            JNum.fin 4, []⟩⟩).accelerated =
      some ⟨7, 8, JNum.fin 9, JNum.fin 1, JNum.fin 2, JNum.fin 3,
        JNum.fin 4⟩ :=
  (summarizeLoan_projection
    ⟨5, 0, ⟨7, JNum.fin 9, JNum.fin 0, JNum.fin 2, []⟩,
      some ⟨7, 8, JNum.fin 9, JNum.fin 1, JNum.fin 2, JNum.fin 3,
        JNum.fin 4, []⟩⟩).2.2.2.2.2.2.2
    ⟨7, 8, JNum.fin 9, JNum.fin 1, JNum.fin 2, JNum.fin 3, JNum.fin 4, []⟩
    rfl

/-- C9: `monthsToYearsMonths` rounds a finite input to the nearest whole
period clamped at zero and splits it by 12 into years and months
(characterised by `12 * years + months` recombining to the rounded count
with `months < 12`), maps every non-finite input to zero years and zero
months, and in particular maps 15 to one year three months and 0 to zero
years zero months. -/
theorem monthsToYearsMonths_spec :
    (∀ q : ℚ,
      12 * (monthsToYearsMonths (JNum.fin q)).years +
          (monthsToYearsMonths (JNum.fin q)).months =
        (max (jsRound q) 0).toNat ∧
      (monthsToYearsMonths (JNum.fin q)).months < 12) ∧
    (∀ j : JNum, j.isFinite = false → monthsToYearsMonths j = ⟨0, 0⟩) ∧
    monthsToYearsMonths (JNum.fin 15) = ⟨1, 3⟩ ∧
    monthsToYearsMonths (JNum.fin 0) = ⟨0, 0⟩ := by
  refine ⟨?_, ?_, by decide, by decide⟩
  · intro q
    refine ⟨?_, Nat.mod_lt _ (by norm_num)⟩
    simp only [monthsToYearsMonths]
    exact Nat.div_add_mod _ 12
  · intro j hj
    cases j <;> simp_all [monthsToYearsMonths, JNum.isFinite]

/-- Witness for C9 at the non-finite input `+∞`. -/
theorem monthsToYearsMonths_spec_witness :
    JNum.inf.isFinite = false ∧ monthsToYearsMonths JNum.inf = ⟨0, 0⟩ :=
  ⟨rfl, monthsToYearsMonths_spec.2.1 JNum.inf rfl⟩

/-- C10: on every schedule produced by the amortization simulator with a
positive principal, cumulative principal paid plus remaining balance
reconstruct the original principal exactly at every point. -/
theorem amortize_principal_balance_consistent :
    ∀ P r s e : ℚ, 0 < P →
      ∀ pt ∈ (amortize P r s e).schedule,
        pt.totalPrincipalPaid + pt.balance = P :=
  fun P r s e _ => amortize_conservation P r s e

/-- Witness for C10 on a 12-period zero-rate loan, checked at its first
schedule point. -/
theorem amortize_principal_balance_consistent_witness :
    (0:ℚ) < 1200 ∧
    (⟨1, 1, 100, 100, 0, 1100, 100, 0⟩ :
        AmortizationPoint).totalPrincipalPaid +
      (⟨1, 1, 100, 100, 0, 1100, 100, 0⟩ : AmortizationPoint).balance =
      1200 :=
  ⟨by norm_num,
    amortize_principal_balance_consistent 1200 0 100 0 (by norm_num)
      ⟨1, 1, 100, 100, 0, 1100, 100, 0⟩ (by decide)⟩

/-- If an `amortize` run reports a finite payoff, its total interest and
total payment are finite as well. -/
theorem amortize_all_fin_of_payoff_fin (P r s e : ℚ)
    (h : (amortize P r s e).summary.payoffMonths.isFinite = true) :
    (amortize P r s e).summary.totalInterest.isFinite = true ∧
    (amortize P r s e).summary.totalPayment.isFinite = true := by
  rw [amortize] at h ⊢
  simp only [] at h ⊢
  split_ifs at h ⊢ with h1 h2
  · exact ⟨rfl, rfl⟩
  · simp [infCalc, JNum.isFinite] at h
  · rcases amortizeGo_fin_or_inf P r (s + max 0 e) MAX_MONTHS P 0 0 0 [] with
      hc | ⟨n, t, p, hc⟩
    · rw [hc] at h
      simp [infCalc, JNum.isFinite] at h
    · rw [hc]
      exact ⟨rfl, rfl⟩

/-- C1: the `accelerated` field of a `calculateLoan` result is present if
and only if the clamped extra payment is positive and the accelerated
simulation run converges (finite payoff).  When it is present, the run's
own summary fields (payoff months, total interest, total payment) are all
finite — a non-convergent accelerated run is never surfaced as an
infinite-valued object, it is omitted entirely. -/
theorem calculateLoan_accel_present_iff :
    ∀ i : LoanInputs,
      ((calculateLoan i).accelerated.isSome = true ↔
        (0 < extraPaymentOf i ∧
          (accRunOf i).summary.payoffMonths.isFinite = true)) ∧
      (∀ a, (calculateLoan i).accelerated = some a →
        a.payoffMonths.isFinite = true ∧
        a.totalInterest.isFinite = true ∧
        a.totalPayment.isFinite = true) := by
  intro i
  constructor
  · constructor
    · intro h
      obtain ⟨a, ha⟩ := Option.isSome_iff_exists.1 h
      obtain ⟨hx, hfin, _⟩ := calculateLoan_accel_some i a ha
      exact ⟨hx, hfin⟩
    · rintro ⟨hx, hfin⟩
      exact calculateLoan_accel_isSome i hx hfin
  · intro a ha
    obtain ⟨hx, hfin, rfl⟩ := calculateLoan_accel_some i a ha
    obtain ⟨hti, htp⟩ := amortize_all_fin_of_payoff_fin (principalOf i)
      (monthlyRateOf i) (scheduledPaymentOf i) (extraPaymentOf i) hfin
    exact ⟨hfin, hti, htp⟩

/-- Witness for C1 at a concrete input whose accelerated run converges
trivially (the principal is zero). -/
theorem calculateLoan_accel_present_iff_witness :
    ((calculateLoan ⟨100, 100, 6/5, 35, 1⟩).accelerated.isSome = true ↔
      (0 < extraPaymentOf ⟨100, 100, 6/5, 35, 1⟩ ∧
        (accRunOf ⟨100, 100, 6/5, 35, 1⟩).summary.payoffMonths.isFinite =
          true)) ∧
    (⟨0, 0 + 1, JNum.fin 0, JNum.fin 0, JNum.fin 0, JNum.fin 0, JNum.fin 0,
        []⟩ : AcceleratedAmortization).payoffMonths.isFinite = true :=
  ⟨(calculateLoan_accel_present_iff ⟨100, 100, 6/5, 35, 1⟩).1,
   ((calculateLoan_accel_present_iff ⟨100, 100, 6/5, 35, 1⟩).2
      ⟨0, 0 + 1, JNum.fin 0, JNum.fin 0, JNum.fin 0, JNum.fin 0, JNum.fin 0,
        []⟩ (by decide)).1⟩

/-- Counterexample to C2 as stated: with the down payment equal to the
purchase price (both positive) and a positive extra monthly payment, the
accelerated field is NOT absent — the accelerated run on the zero
principal converges with payoff 0, so `calculateLoan` keeps it. -/
theorem calculateLoan_full_downpayment_counterexample :
    (calculateLoan ⟨100, 100, 6/5, 35, 1⟩).accelerated ≠ none := by decide

/-- C2 (amended): when the down payment equals the purchase price (and the
price is positive), the principal is 0 and the base plan pays off in 0
periods; the accelerated plan is absent when the extra monthly payment is
not positive, but when it is positive the accelerated plan IS present,
with payoff 0 and zero interest/months saved. -/
theorem calculateLoan_full_downpayment :
    ∀ i : LoanInputs, i.downPayment = i.purchasePrice →
      0 < i.purchasePrice →
      (calculateLoan i).principal = 0 ∧
      (calculateLoan i).base.payoffMonths = JNum.fin 0 ∧
      (i.extraMonthlyPayment ≤ 0 → (calculateLoan i).accelerated = none) ∧
      (0 < i.extraMonthlyPayment →
        (calculateLoan i).accelerated.isSome = true ∧
        ∀ a, (calculateLoan i).accelerated = some a →
          a.payoffMonths = JNum.fin 0 ∧ a.interestSaved = JNum.fin 0 ∧
          a.monthsSaved = JNum.fin 0) := by
  intro i hd hpp
  have hP0 : principalOf i = 0 := by
    simp [principalOf, purchasePriceOf, downPaymentOf, hd, max_eq_right hpp.le]
  have hbase : baseCalcOf i = ⟨⟨JNum.fin 0, JNum.fin 0, JNum.fin 0⟩, []⟩ := by
    unfold baseCalcOf
    rw [hP0, amortize, if_pos le_rfl]
  have hacc : accRunOf i = ⟨⟨JNum.fin 0, JNum.fin 0, JNum.fin 0⟩, []⟩ := by
    unfold accRunOf
    rw [hP0, amortize, if_pos le_rfl]
  refine ⟨hP0, ?_, ?_, ?_⟩
  · show (baseCalcOf i).summary.payoffMonths = JNum.fin 0
    rw [hbase]
  · intro hx
    refine calculateLoan_accel_none_of_no_extra i ?_
    simp [extraPaymentOf]
    linarith
  · intro hx
    have hxp : 0 < extraPaymentOf i :=
      lt_of_lt_of_le hx (le_max_left _ _)
    have hfin : (accRunOf i).summary.payoffMonths.isFinite = true := by
      rw [hacc]; rfl
    refine ⟨calculateLoan_accel_isSome i hxp hfin, ?_⟩
    intro a ha
    obtain ⟨-, -, rfl⟩ := calculateLoan_accel_some i a ha
    rw [hacc, hbase]
    refine ⟨rfl, ?_, ?_⟩ <;> simp [JNum.sub, JNum.max0]

/-- Witness for the amended C2 at a concrete full-down-payment input. -/
theorem calculateLoan_full_downpayment_witness :
    (100:ℚ) = 100 ∧ (0:ℚ) < 100 ∧
    (calculateLoan ⟨100, 100, 6/5, 35, 1⟩).principal = 0 ∧
    (calculateLoan ⟨100, 100, 6/5, 35, 1⟩).base.payoffMonths = JNum.fin 0 ∧
    (calculateLoan ⟨100, 100, 6/5, 35, 1⟩).accelerated.isSome = true :=
  ⟨rfl, by norm_num,
   (calculateLoan_full_downpayment ⟨100, 100, 6/5, 35, 1⟩ rfl (by norm_num)).1,
   (calculateLoan_full_downpayment ⟨100, 100, 6/5, 35, 1⟩ rfl (by norm_num)).2.1,
   ((calculateLoan_full_downpayment ⟨100, 100, 6/5, 35, 1⟩ rfl
      (by norm_num)).2.2.2 (by norm_num)).1⟩

/-- C4: for every `calculateLoan` result whose base payoff is finite, the
base schedule has exactly `payoffMonths` entries, its balances are
non-increasing, every point's principal and interest components add up to
its payment (exactly, in the rational model), and the final balance is
within `1e-5` of zero; the same holds for the accelerated schedule
whenever the accelerated plan is present. -/
theorem calculateLoan_schedule_invariants :
    ∀ i : LoanInputs,
      ((calculateLoan i).base.payoffMonths.isFinite = true →
        (calculateLoan i).base.payoffMonths =
          JNum.fin ((calculateLoan i).base.schedule.length : ℚ)) ∧
      balancesMono (calculateLoan i).base.schedule ∧
      (∀ pt ∈ (calculateLoan i).base.schedule,
        pt.principalPayment + pt.interestPayment = pt.payment) ∧
      (∀ pt, (calculateLoan i).base.schedule.getLast? = some pt →
        pt.balance ≤ 1/100000 ∧ -(1/100000) ≤ pt.balance) ∧
      (∀ a, (calculateLoan i).accelerated = some a →
        a.payoffMonths = JNum.fin ((a.schedule.length : ℚ)) ∧
        balancesMono a.schedule ∧
        (∀ pt ∈ a.schedule,
          pt.principalPayment + pt.interestPayment = pt.payment) ∧
        (∀ pt, a.schedule.getLast? = some pt →
          pt.balance ≤ 1/100000 ∧ -(1/100000) ≤ pt.balance)) := by
  intro i
  obtain ⟨h1, h2, h3, h4⟩ := amortize_schedule_ok (principalOf i)
    (monthlyRateOf i) (scheduledPaymentOf i) 0
  have hE : EPSILON ≤ 1/100000 := by norm_num [EPSILON]
  refine ⟨h1, h2, h3, ?_, ?_⟩
  · intro pt hpt
    obtain ⟨hs, hnn⟩ := h4 pt hpt
    exact ⟨le_trans hs hE, le_trans (by norm_num) hnn⟩
  · intro a ha
    obtain ⟨-, hfin, rfl⟩ := calculateLoan_accel_some i a ha
    obtain ⟨g1, g2, g3, g4⟩ := amortize_schedule_ok (principalOf i)
      (monthlyRateOf i) (scheduledPaymentOf i) (extraPaymentOf i)
    refine ⟨g1 hfin, g2, g3, ?_⟩
    intro pt hpt
    obtain ⟨hs, hnn⟩ := g4 pt hpt
    exact ⟨le_trans hs hE, le_trans (by norm_num) hnn⟩

/-- Witness for C4 on a 12-period zero-rate loan. -/
theorem calculateLoan_schedule_invariants_witness :
    (calculateLoan ⟨1200, 0, 0, 1, 0⟩).base.payoffMonths.isFinite = true ∧
    (calculateLoan ⟨1200, 0, 0, 1, 0⟩).base.payoffMonths =
      JNum.fin ((calculateLoan ⟨1200, 0, 0, 1, 0⟩).base.schedule.length : ℚ) :=
  ⟨by decide, (calculateLoan_schedule_invariants ⟨1200, 0, 0, 1, 0⟩).1
    (by decide)⟩

/-- C5 (amended): the simulator is a total function (it never throws); for
a positive principal its summary reports `+∞` exactly when the effective
payment is not positive, or some period's principal portion is not
positive (negative amortization), or the loop consumes the entire
1000×12-period budget — including the corner case where the balance is
paid off exactly at the 12000th period (`loopExit`, unlike the claim's
"ceiling reached before payoff", classifies that run as `ceiling`).  Any
non-finite result carries `+∞` in all three summary fields and an empty
schedule, and every other result is finite. -/
theorem amortize_divergence_characterisation :
    ∀ P r s e : ℚ, 0 < P →
      ((amortize P r s e).summary.payoffMonths = JNum.inf ↔
        (s + max 0 e ≤ 0 ∨
          loopExit r (s + max 0 e) MAX_MONTHS P = RunOutcome.negAm ∨
          loopExit r (s + max 0 e) MAX_MONTHS P = RunOutcome.ceiling)) ∧
      ((amortize P r s e).summary.payoffMonths = JNum.inf →
        amortize P r s e = infCalc) ∧
      ((amortize P r s e).summary.payoffMonths ≠ JNum.inf →
        (amortize P r s e).summary.payoffMonths.isFinite = true) := by
  intro P r s e hP
  rw [amortize]
  simp only []
  rw [if_neg (not_le.2 hP)]
  split_ifs with hq
  · refine ⟨⟨fun _ => Or.inl hq, fun _ => rfl⟩, fun _ => rfl, ?_⟩
    intro h
    exact absurd rfl h
  · refine ⟨?_, ?_, ?_⟩
    · rw [amortizeGo_inf_iff_exit]
      constructor
      · exact fun h => Or.inr h
      · rintro (h | h)
        · exact absurd h hq
        · exact h
    · exact amortizeGo_inf_shape P r (s + max 0 e) MAX_MONTHS P 0 0 0 []
    · intro h
      rcases amortizeGo_fin_or_inf P r (s + max 0 e) MAX_MONTHS P 0 0 0 [] with
        hc | ⟨n, t, p, hc⟩
      · rw [hc] at h
        exact absurd rfl h
      · rw [hc]
        rfl

/-- Counterexample to C5 as stated: a zero-rate loan of 12000 paid down by
exactly 1 per period pays off exactly at the 12000-period ceiling, so the
ceiling is NOT reached "before payoff" (the claim-side classifier
`loopClass` reports `paidOff`), the payment is positive and no period has
a non-positive principal portion — yet the simulator still returns
`payoffMonths = +∞`. -/
theorem amortize_divergence_counterexample :
    (0:ℚ) < 12000 ∧
    (amortize 12000 0 1 0).summary.payoffMonths = JNum.inf ∧
    ¬((1:ℚ) + max 0 0 ≤ 0) ∧
    loopClass 0 (1 + max 0 0) MAX_MONTHS 12000 = RunOutcome.paidOff := by
  refine ⟨by norm_num, ?_, by norm_num, ?_⟩
  · rw [amortize]
    simp only []
    rw [if_neg (by norm_num), if_neg (by norm_num)]
    rw [amortizeGo_inf_of_big 12000 0 (1 + max 0 0) le_rfl (by norm_num)
      MAX_MONTHS 12000 0 0 0 [] (by norm_num [MAX_MONTHS, EPSILON])]
    rfl
  · exact loopClass_paidOff_zero_rate (1 + max 0 0) (by norm_num) MAX_MONTHS
      12000 (by norm_num) (by norm_num [MAX_MONTHS, EPSILON])

/-- Witness for the amended C5 at a concrete positive principal. -/
theorem amortize_divergence_characterisation_witness :
    (0:ℚ) < 1 ∧
    ((amortize 1 0 1 0).summary.payoffMonths = JNum.inf ↔
      ((1:ℚ) + max 0 0 ≤ 0 ∨
        loopExit 0 (1 + max 0 0) MAX_MONTHS 1 = RunOutcome.negAm ∨
        loopExit 0 (1 + max 0 0) MAX_MONTHS 1 = RunOutcome.ceiling)) :=
  ⟨by norm_num, (amortize_divergence_characterisation 1 0 1 0 (by norm_num)).1⟩

/-- C7 (amended): for a zero annual interest rate and positive principal,
provided the period count stays below the 1000×12 iteration ceiling, the
scheduled payment is the principal divided by the period count (no NaN or
division by zero can arise in the rational model), the base plan's total
interest is exactly 0, and its total payment is within the termination
epsilon of the principal.  (Without the ceiling hypothesis the claim
fails: a term of 2000 years diverges and reports infinite totals.) -/
theorem calculateLoan_zero_rate :
    ∀ i : LoanInputs, i.annualInterestRate = 0 → 0 < principalOf i →
      monthsOf i < MAX_MONTHS →
      (calculateLoan i).base.monthlyPayment =
        principalOf i / (monthsOf i : ℚ) ∧
      (calculateLoan i).base.totalInterest = JNum.fin 0 ∧
      ∃ t : ℚ, (calculateLoan i).base.totalPayment = JNum.fin t ∧
        principalOf i - EPSILON ≤ t ∧ t ≤ principalOf i := by
  intro i hrate hP hm
  have hr0 : monthlyRateOf i = 0 := by
    simp [monthlyRateOf, hrate]
  have hs : scheduledPaymentOf i = principalOf i / (monthsOf i : ℚ) := by
    unfold scheduledPaymentOf
    rw [if_pos hP, if_pos hr0]
  have hmq : (0:ℚ) < (monthsOf i : ℚ) := by
    have := monthsOf_pos i
    exact_mod_cast Nat.lt_of_lt_of_le Nat.zero_lt_one this
  have hq : 0 < scheduledPaymentOf i := scheduledPaymentOf_pos i hP
  have hq' : 0 < scheduledPaymentOf i + max 0 0 := by
    simpa using hq
  have hbase : baseCalcOf i =
      amortizeGo (principalOf i) 0 (scheduledPaymentOf i + max 0 0) MAX_MONTHS
        (principalOf i) 0 0 0 [] := by
    unfold baseCalcOf
    rw [hr0, amortize]
    simp only []
    rw [if_neg (not_le.2 hP), if_neg (not_le.2 hq')]
  have hmle : (monthsOf i : ℚ) ≤ 11999 := by
    have : monthsOf i ≤ 11999 := by
      have : MAX_MONTHS = 12000 := by norm_num [MAX_MONTHS]
      omega
    exact_mod_cast this
  have hfuel : principalOf i ≤ EPSILON + (11999 : ℕ) * (scheduledPaymentOf i + max 0 0) := by
    have hEq : principalOf i = (scheduledPaymentOf i) * (monthsOf i : ℚ) := by
      rw [hs, div_mul_cancel₀]
      exact ne_of_gt hmq
    have h1 : (scheduledPaymentOf i) * (monthsOf i : ℚ) ≤
        (scheduledPaymentOf i) * 11999 :=
      mul_le_mul_of_nonneg_left hmle hq.le
    have hE0 : (0:ℚ) ≤ EPSILON := by norm_num [EPSILON]
    push_cast
    rw [hEq]
    simp only [max_self, add_zero]
    linarith
  have hMAX : MAX_MONTHS = 11999 + 1 := by norm_num [MAX_MONTHS]
  have hfin : (baseCalcOf i).summary.payoffMonths.isFinite = true := by
    rw [hbase, hMAX]
    exact amortizeGo_zero_rate_fin (principalOf i)
      (scheduledPaymentOf i + max 0 0) hq' 11999 (principalOf i) 0 0 0 []
      hfuel
  refine ⟨hs, ?_, ?_⟩
  · show (baseCalcOf i).summary.totalInterest = JNum.fin 0
    rcases amortizeGo_fin_or_inf (principalOf i) 0
        (scheduledPaymentOf i + max 0 0) MAX_MONTHS (principalOf i) 0 0 0 []
      with hc | ⟨n, t, p, hc⟩
    · rw [hbase, hc] at hfin
      simp [infCalc, JNum.isFinite] at hfin
    · have hTI : (baseCalcOf i).summary.totalInterest = JNum.fin t := by
        rw [hbase, hc]
      have ht0 : t = 0 := amortizeGo_zero_rate_ti (principalOf i)
        (scheduledPaymentOf i + max 0 0) MAX_MONTHS (principalOf i) 0 0 0 [] t
        (by rw [← hbase]; exact hTI)
      rw [hTI, ht0]
  · rcases amortizeGo_fin_or_inf (principalOf i) 0
        (scheduledPaymentOf i + max 0 0) MAX_MONTHS (principalOf i) 0 0 0 []
      with hc | ⟨n, t, p, hc⟩
    · rw [hbase, hc] at hfin
      simp [infCalc, JNum.isFinite] at hfin
    · have hTP : (baseCalcOf i).summary.totalPayment = JNum.fin p := by
        rw [hbase, hc]
      obtain ⟨hl, hu⟩ := amortizeGo_zero_rate_tp (principalOf i)
        (scheduledPaymentOf i + max 0 0) MAX_MONTHS (principalOf i) 0 0 0 [] p
        (by rw [← hbase]; exact hTP)
      rw [max_eq_left hP.le] at hl hu
      exact ⟨p, hTP, by linarith, by linarith⟩

/-- Counterexample to C7 as stated: at zero rate with a 2000-year term the
period count (24000) exceeds the iteration ceiling, the base run returns
the non-convergent result, and the total interest is `+∞`, not 0. -/
theorem calculateLoan_zero_rate_counterexample :
    (⟨24000, 0, 0, 2000, 0⟩ : LoanInputs).annualInterestRate = 0 ∧
    0 < principalOf ⟨24000, 0, 0, 2000, 0⟩ ∧
    (calculateLoan ⟨24000, 0, 0, 2000, 0⟩).base.totalInterest = JNum.inf := by
  refine ⟨rfl, by decide, ?_⟩
  rw [calculateLoan_base_totalInterest]
  unfold baseCalcOf
  rw [show principalOf ⟨24000, 0, 0, 2000, 0⟩ = 24000 from by decide,
    show monthlyRateOf ⟨24000, 0, 0, 2000, 0⟩ = 0 from by decide,
    show scheduledPaymentOf ⟨24000, 0, 0, 2000, 0⟩ = 1 from by decide]
  rw [amortize]
  simp only []
  rw [if_neg (by norm_num), if_neg (by norm_num)]
  rw [amortizeGo_inf_of_big 24000 0 (1 + max 0 0) le_rfl (by norm_num)
    MAX_MONTHS 24000 0 0 0 [] (by norm_num [MAX_MONTHS, EPSILON])]
  rfl

/-- Witness for the amended C7 at the spec's concrete zero-rate example. -/
theorem calculateLoan_zero_rate_witness :
    (⟨3000000, 0, 0, 10, 0⟩ : LoanInputs).annualInterestRate = 0 ∧
    0 < principalOf ⟨3000000, 0, 0, 10, 0⟩ ∧
    monthsOf ⟨3000000, 0, 0, 10, 0⟩ < MAX_MONTHS ∧
    (calculateLoan ⟨3000000, 0, 0, 10, 0⟩).base.monthlyPayment = 25000 ∧
    (calculateLoan ⟨3000000, 0, 0, 10, 0⟩).base.totalInterest = JNum.fin 0 ∧
    (calculateLoan ⟨3000000, 0, 0, 10, 0⟩).base.totalPayment =
      JNum.fin 3000000 := by
  refine ⟨rfl, by decide, by decide, ?_, ?_, by decide⟩
  · have h := (calculateLoan_zero_rate ⟨3000000, 0, 0, 10, 0⟩ rfl (by decide)
      (by decide)).1
    rw [h]
    decide
  · exact (calculateLoan_zero_rate ⟨3000000, 0, 0, 10, 0⟩ rfl (by decide)
      (by decide)).2.1

theorem amortize_summary_shape (P r s e : ℚ) :
    amortize P r s e = infCalc ∨
    ∃ n : ℕ, ∃ t p : ℚ,
      (amortize P r s e).summary =
        ⟨JNum.fin n, JNum.fin t, JNum.fin p⟩ := by
  rw [amortize]
  simp only []
  split_ifs
  · exact Or.inr ⟨0, 0, 0, by simp⟩
  · exact Or.inl rfl
  · exact amortizeGo_fin_or_inf P r (s + max 0 e) MAX_MONTHS P 0 0 0 []

/-- Counterexample to C3 as stated: with a positive extra payment and a
positive rate but a zero principal (down payment equal to price), the
accelerated plan is present, yet its payoff equals the base payoff (both
0) and the interest saved is 0, not positive. -/
theorem calculateLoan_accel_savings_counterexample :
    (0:ℚ) < (⟨100, 100, 6/5, 35, 1⟩ : LoanInputs).extraMonthlyPayment ∧
    (0:ℚ) < (⟨100, 100, 6/5, 35, 1⟩ : LoanInputs).annualInterestRate ∧
    (calculateLoan ⟨100, 100, 6/5, 35, 1⟩).accelerated.isSome = true ∧
    ¬ JNum.Lt
      ((calculateLoan ⟨100, 100, 6/5, 35, 1⟩).accelerated.elim JNum.inf
        AcceleratedAmortization.payoffMonths)
      (calculateLoan ⟨100, 100, 6/5, 35, 1⟩).base.payoffMonths ∧
    ¬ JNum.Lt (JNum.fin 0)
      ((calculateLoan ⟨100, 100, 6/5, 35, 1⟩).accelerated.elim JNum.inf
        AcceleratedAmortization.interestSaved) := by
  decide

/-- C3 (amended): with a positive extra monthly payment and a positive
rate, whenever the accelerated plan is present its payoff month count is
at most the base payoff month count, its total interest is at most the
base total interest, and the reported interest saved is non-negative.
(The strict versions fail, e.g. when the principal is zero or when the
base plan pays off in its first period.) -/
theorem calculateLoan_accel_savings :
    ∀ i : LoanInputs, 0 < i.extraMonthlyPayment →
      0 < i.annualInterestRate →
      ∀ a, (calculateLoan i).accelerated = some a →
        JNum.Le a.payoffMonths (calculateLoan i).base.payoffMonths ∧
        JNum.Le a.totalInterest (calculateLoan i).base.totalInterest ∧
        JNum.Le (JNum.fin 0) a.interestSaved := by
  intro i hx hr a ha
  obtain ⟨hxp, hfin, rfl⟩ := calculateLoan_accel_some i a ha
  have hr0 : 0 ≤ monthlyRateOf i := monthlyRateOf_nonneg i
  have hqq : scheduledPaymentOf i + max 0 0 ≤
      scheduledPaymentOf i + max 0 (extraPaymentOf i) := by
    have : (0:ℚ) ≤ extraPaymentOf i := le_max_right _ _
    have h2 : max (0:ℚ) 0 ≤ max 0 (extraPaymentOf i) :=
      max_le_max le_rfl this
    linarith
  have hsaved : JNum.Le (JNum.fin 0)
      ((JNum.sub (baseCalcOf i).summary.totalInterest
        (accRunOf i).summary.totalInterest).max0) := by
    have hfin2 := hfin
    unfold accRunOf at hfin2 ⊢
    unfold baseCalcOf
    rcases amortize_summary_shape (principalOf i) (monthlyRateOf i)
        (scheduledPaymentOf i) 0 with hb | ⟨n, t, p, hb⟩ <;>
      rcases amortize_summary_shape (principalOf i) (monthlyRateOf i)
          (scheduledPaymentOf i) (extraPaymentOf i) with hc | ⟨n', t', p', hc⟩ <;>
        first
          | (rw [hc] at hfin2
             simp [infCalc, JNum.isFinite] at hfin2
             done)
          | (simp only [hb, hc, infCalc]
             simp [JNum.sub, JNum.max0, JNum.Le, JNum.ble])
  by_cases hP : 0 < principalOf i
  · have hq : 0 < scheduledPaymentOf i := scheduledPaymentOf_pos i hP
    have hqb : ¬ scheduledPaymentOf i + max 0 0 ≤ 0 := by
      simp only [max_self, add_zero]
      exact not_le.2 hq
    have hqa : ¬ scheduledPaymentOf i + max 0 (extraPaymentOf i) ≤ 0 :=
      fun h => hqb (le_trans (by linarith) h)
    have hbase : baseCalcOf i =
        amortizeGo (principalOf i) (monthlyRateOf i)
          (scheduledPaymentOf i + max 0 0) MAX_MONTHS (principalOf i)
          0 0 0 [] := by
      unfold baseCalcOf
      rw [amortize]
      simp only []
      rw [if_neg (not_le.2 hP), if_neg hqb]
    have hacc : accRunOf i =
        amortizeGo (principalOf i) (monthlyRateOf i)
          (scheduledPaymentOf i + max 0 (extraPaymentOf i)) MAX_MONTHS
          (principalOf i) 0 0 0 [] := by
      unfold accRunOf
      rw [amortize]
      simp only []
      rw [if_neg (not_le.2 hP), if_neg hqa]
    have hcouple := amortizeGo_mono (principalOf i) (principalOf i)
      (monthlyRateOf i) (scheduledPaymentOf i + max 0 0)
      (scheduledPaymentOf i + max 0 (extraPaymentOf i)) hr0 hqq MAX_MONTHS
      (principalOf i) (principalOf i) 0 0 0 0 0 [] [] le_rfl le_rfl
    constructor
    · show JNum.Le (accRunOf i).summary.payoffMonths
        (baseCalcOf i).summary.payoffMonths
      rw [hbase, hacc]
      exact hcouple.1
    constructor
    · show JNum.Le (accRunOf i).summary.totalInterest
        (baseCalcOf i).summary.totalInterest
      rw [hbase, hacc]
      exact hcouple.2
    · exact hsaved
  · have hfast : ∀ e' : ℚ,
        amortize (principalOf i) (monthlyRateOf i) (scheduledPaymentOf i) e' =
          ⟨⟨JNum.fin 0, JNum.fin 0, JNum.fin 0⟩, []⟩ := by
      intro e'
      rw [amortize, if_pos (not_lt.1 hP)]
    refine ⟨?_, ?_, hsaved⟩
    · show JNum.Le (accRunOf i).summary.payoffMonths
        (baseCalcOf i).summary.payoffMonths
      unfold accRunOf baseCalcOf
      rw [hfast, hfast]
      simp [JNum.Le, JNum.ble]
    · show JNum.Le (accRunOf i).summary.totalInterest
        (baseCalcOf i).summary.totalInterest
      unfold accRunOf baseCalcOf
      rw [hfast, hfast]
      simp [JNum.Le, JNum.ble]

/-- Witness for the amended C3 at a concrete input with a present
accelerated plan. -/
theorem calculateLoan_accel_savings_witness :
    (0:ℚ) < 1 ∧ (0:ℚ) < 6/5 ∧
    JNum.Le
      (⟨0, 0 + 1, JNum.fin 0, JNum.fin 0, JNum.fin 0, JNum.fin 0, JNum.fin 0,
        []⟩ : AcceleratedAmortization).payoffMonths
      (calculateLoan ⟨100, 100, 6/5, 35, 1⟩).base.payoffMonths :=
  ⟨by norm_num, by norm_num,
   (calculateLoan_accel_savings ⟨100, 100, 6/5, 35, 1⟩ (by norm_num)
      (by norm_num)
      ⟨0, 0 + 1, JNum.fin 0, JNum.fin 0, JNum.fin 0, JNum.fin 0, JNum.fin 0,
        []⟩ (by decide)).1⟩

/-- C6: the spec's standard case — price 42,000,000, down payment
8,400,000, rate 1.2%, term 35 years, extra 10,000 — yields principal
33,600,000, a base payoff of 420 months, a present accelerated plan whose
payment-with-extra is within 0.01 of the base monthly payment plus 10,000
(exactly equal in the rational model), a strictly earlier accelerated
payoff, and strictly positive interest saved. -/
theorem calculateLoan_standard_case :
    (calculateLoan ⟨42000000, 8400000, 6/5, 35, 10000⟩).principal =
      33600000 ∧
    (calculateLoan ⟨42000000, 8400000, 6/5, 35, 10000⟩).base.payoffMonths =
      JNum.fin 420 ∧
    (calculateLoan ⟨42000000, 8400000, 6/5, 35, 10000⟩).accelerated.isSome =
      true ∧
    ((calculateLoan ⟨42000000, 8400000, 6/5, 35, 10000⟩).accelerated.elim 0
        AcceleratedAmortization.monthlyPaymentWithExtra -
      ((calculateLoan ⟨42000000, 8400000, 6/5, 35, 10000⟩).base.monthlyPayment
        + 10000) ≤ 1/100 ∧
      ((calculateLoan ⟨42000000, 8400000, 6/5, 35, 10000⟩).base.monthlyPayment
        + 10000) -
        (calculateLoan ⟨42000000, 8400000, 6/5, 35, 10000⟩).accelerated.elim 0
          AcceleratedAmortization.monthlyPaymentWithExtra ≤ 1/100) ∧
    JNum.Lt
      ((calculateLoan ⟨42000000, 8400000, 6/5, 35, 10000⟩).accelerated.elim
        JNum.inf AcceleratedAmortization.payoffMonths)
      (JNum.fin 420) ∧
    JNum.Lt (JNum.fin 0)
      ((calculateLoan ⟨42000000, 8400000, 6/5, 35, 10000⟩).accelerated.elim
        (JNum.fin 0) AcceleratedAmortization.interestSaved) := by
  refine ⟨by decide, by decide, by decide, ⟨by decide, by decide⟩, by decide,
    ?_⟩
  have hsome :
      (calculateLoan ⟨42000000, 8400000, 6/5, 35, 10000⟩).accelerated.isSome =
        true := by decide
  obtain ⟨a, ha⟩ := Option.isSome_iff_exists.1 hsome
  obtain ⟨hx, hfin, rfl⟩ :=
    calculateLoan_accel_some ⟨42000000, 8400000, 6/5, 35, 10000⟩ a ha
  rw [ha]
  have hBdef : baseCalcOf ⟨42000000, 8400000, 6/5, 35, 10000⟩ =
      amortize (principalOf ⟨42000000, 8400000, 6/5, 35, 10000⟩)
        (monthlyRateOf ⟨42000000, 8400000, 6/5, 35, 10000⟩)
        (scheduledPaymentOf ⟨42000000, 8400000, 6/5, 35, 10000⟩) 0 := rfl
  have hAdef : accRunOf ⟨42000000, 8400000, 6/5, 35, 10000⟩ =
      amortize (principalOf ⟨42000000, 8400000, 6/5, 35, 10000⟩)
        (monthlyRateOf ⟨42000000, 8400000, 6/5, 35, 10000⟩)
        (scheduledPaymentOf ⟨42000000, 8400000, 6/5, 35, 10000⟩)
        (extraPaymentOf ⟨42000000, 8400000, 6/5, 35, 10000⟩) := rfl
  have hb420 :
      (baseCalcOf ⟨42000000, 8400000, 6/5, 35, 10000⟩).summary.payoffMonths =
        JNum.fin 420 := by decide
  have ha373 :
      (accRunOf ⟨42000000, 8400000, 6/5, 35, 10000⟩).summary.payoffMonths =
        JNum.fin 373 := by decide
  rcases amortize_summary_shape
      (principalOf ⟨42000000, 8400000, 6/5, 35, 10000⟩)
      (monthlyRateOf ⟨42000000, 8400000, 6/5, 35, 10000⟩)
      (scheduledPaymentOf ⟨42000000, 8400000, 6/5, 35, 10000⟩) 0 with
    hc1 | ⟨nb, tb, pb, hc1⟩
  · rw [hBdef, hc1] at hb420
    simp [infCalc] at hb420
  rcases amortize_summary_shape
      (principalOf ⟨42000000, 8400000, 6/5, 35, 10000⟩)
      (monthlyRateOf ⟨42000000, 8400000, 6/5, 35, 10000⟩)
      (scheduledPaymentOf ⟨42000000, 8400000, 6/5, 35, 10000⟩)
      (extraPaymentOf ⟨42000000, 8400000, 6/5, 35, 10000⟩) with
    hc2 | ⟨na, ta, pa, hc2⟩
  · rw [hAdef, hc2] at ha373
    simp [infCalc] at ha373
  have hnb : ((nb : ℚ)) = 420 := by
    rw [hBdef, hc1] at hb420
    simpa using hb420
  have hna : ((na : ℚ)) = 373 := by
    rw [hAdef, hc2] at ha373
    simpa using ha373
  have hPpos : 0 < principalOf ⟨42000000, 8400000, 6/5, 35, 10000⟩ := by
    decide
  have hrpos : 0 < monthlyRateOf ⟨42000000, 8400000, 6/5, 35, 10000⟩ := by
    decide
  have hq := scheduledPaymentOf_pos ⟨42000000, 8400000, 6/5, 35, 10000⟩ hPpos
  have hqb : ¬ scheduledPaymentOf ⟨42000000, 8400000, 6/5, 35, 10000⟩ +
      max 0 0 ≤ 0 := by
    simp only [max_self, add_zero]
    exact not_le.2 hq
  have hqq : scheduledPaymentOf ⟨42000000, 8400000, 6/5, 35, 10000⟩ +
      max 0 0 ≤ scheduledPaymentOf ⟨42000000, 8400000, 6/5, 35, 10000⟩ +
      max 0 (extraPaymentOf ⟨42000000, 8400000, 6/5, 35, 10000⟩) := by
    have h2 : max (0:ℚ) 0 ≤
        max 0 (extraPaymentOf ⟨42000000, 8400000, 6/5, 35, 10000⟩) :=
      max_le_max le_rfl (le_max_right _ _)
    linarith
  have hqa : ¬ scheduledPaymentOf ⟨42000000, 8400000, 6/5, 35, 10000⟩ +
      max 0 (extraPaymentOf ⟨42000000, 8400000, 6/5, 35, 10000⟩) ≤ 0 :=
    fun h => hqb (le_trans hqq h)
  have hbase_go : amortize (principalOf ⟨42000000, 8400000, 6/5, 35, 10000⟩)
      (monthlyRateOf ⟨42000000, 8400000, 6/5, 35, 10000⟩)
      (scheduledPaymentOf ⟨42000000, 8400000, 6/5, 35, 10000⟩) 0 =
      amortizeGo (principalOf ⟨42000000, 8400000, 6/5, 35, 10000⟩)
        (monthlyRateOf ⟨42000000, 8400000, 6/5, 35, 10000⟩)
        (scheduledPaymentOf ⟨42000000, 8400000, 6/5, 35, 10000⟩ + max 0 0)
        MAX_MONTHS (principalOf ⟨42000000, 8400000, 6/5, 35, 10000⟩)
        0 0 0 [] := by
    rw [amortize]
    simp only []
    rw [if_neg (not_le.2 hPpos), if_neg hqb]
  have hacc_go : amortize (principalOf ⟨42000000, 8400000, 6/5, 35, 10000⟩)
      (monthlyRateOf ⟨42000000, 8400000, 6/5, 35, 10000⟩)
      (scheduledPaymentOf ⟨42000000, 8400000, 6/5, 35, 10000⟩)
      (extraPaymentOf ⟨42000000, 8400000, 6/5, 35, 10000⟩) =
      amortizeGo (principalOf ⟨42000000, 8400000, 6/5, 35, 10000⟩)
        (monthlyRateOf ⟨42000000, 8400000, 6/5, 35, 10000⟩)
        (scheduledPaymentOf ⟨42000000, 8400000, 6/5, 35, 10000⟩ +
          max 0 (extraPaymentOf ⟨42000000, 8400000, 6/5, 35, 10000⟩))
        MAX_MONTHS (principalOf ⟨42000000, 8400000, 6/5, 35, 10000⟩)
        0 0 0 [] := by
    rw [amortize]
    simp only []
    rw [if_neg (not_le.2 hPpos), if_neg hqa]
  have hstrict := amortizeGo_mono_strict
    (principalOf ⟨42000000, 8400000, 6/5, 35, 10000⟩)
    (principalOf ⟨42000000, 8400000, 6/5, 35, 10000⟩)
    (monthlyRateOf ⟨42000000, 8400000, 6/5, 35, 10000⟩)
    (scheduledPaymentOf ⟨42000000, 8400000, 6/5, 35, 10000⟩ + max 0 0)
    (scheduledPaymentOf ⟨42000000, 8400000, 6/5, 35, 10000⟩ +
      max 0 (extraPaymentOf ⟨42000000, 8400000, 6/5, 35, 10000⟩))
    hrpos hqq MAX_MONTHS
    (principalOf ⟨42000000, 8400000, 6/5, 35, 10000⟩)
    (principalOf ⟨42000000, 8400000, 6/5, 35, 10000⟩)
    0 0 0 0 0 [] [] le_rfl le_rfl 420 373 tb ta
    (by rw [← hbase_go, ← hnb]
        rw [hc1])
    (by rw [← hacc_go, ← hna]
        rw [hc2])
    (by norm_num)
    (by rw [← hbase_go, hc1])
    (by rw [← hacc_go, hc2])
  simp only [Option.elim]
  rw [show (baseCalcOf ⟨42000000, 8400000, 6/5, 35, 10000⟩).summary.totalInterest
      = JNum.fin tb from by rw [hBdef, hc1],
    show (accRunOf ⟨42000000, 8400000, 6/5, 35, 10000⟩).summary.totalInterest
      = JNum.fin ta from by rw [hAdef, hc2]]
  simp only [JNum.sub, JNum.max0]
  exact JNum.lt_fin_fin.2 (lt_max_iff.2 (Or.inl (by linarith)))
